import Mathlib

/-!
# Verification of the smart-printer print-job engine

Shallow embedding of the client-side print-job code of the repository
(`src/web/app.js` and `src/static/dashboard.js`) and proofs of the spec
claims about it.  Strings are embedded as `List Char`, JS numbers as `ℚ`,
and the per-job monitor interval callback as a pure step function
`monitorTick` from a job and the tick's external observation to the
updated job together with a flag recording whether `clearInterval` was
called on this tick.
-/

/-! ## Character classes

`isDigitC` embeds the JS regex class `\d` (exactly the ASCII digits);
`isJsWs` embeds the JS regex class `\s` (the ECMAScript WhiteSpace and
LineTerminator code points). -/

def isDigitC (c : Char) : Bool :=
  decide ('0' ≤ c) && decide (c ≤ '9')

def jsWsChars : List Char :=
  [' ', '\t', '\n', '\r', '\x0b', '\x0c', '\u00A0', '\u1680',
   '\u2028', '\u2029', '\u202F', '\u205F', '\u3000', '\uFEFF']

def isJsWs (c : Char) : Bool :=
  decide (c ∈ jsWsChars) || (decide ('\u2000' ≤ c) && decide (c ≤ '\u200A'))

/-! ## The page-range regexes

`app.js` line 626: `validatePageRange` tests
`^\d+(-\d+)?(,\d+(-\d+)?)*$` against the input with every `\s` character
removed.  `dashboard.js` line 941 tests `^\d+(-\d+)?(,\s*\d+(-\d+)?)*$`
against the raw input.  Both regexes are deterministic on any input:
after a greedy `\d+` the continuation can only start with `-`, `,` or
end-of-string (never a digit), after `-` only digits may follow, and
after `,\s*` the continuation starts with a digit (never whitespace), so
greedy matching with no backtracking computes exactly the JS `test`
result.  Tokens contain no commas, so matching the whole pattern is the
same as splitting at every comma and matching each chunk. -/

/-- Split a string at every comma (the chunks exclude the commas).
Always returns a non-empty list; `splitComma [] = [[]]`. -/
def splitComma : List Char → List (List Char)
  | [] => [[]]
  | c :: r =>
    if c = ',' then [] :: splitComma r
    else
      match splitComma r with
      | [] => [[c]]
      | d :: ds => (c :: d) :: ds

/-- Matches `^\d+(-\d+)?$`: one chunk of the page-range pattern. -/
def isToken (s : List Char) : Bool :=
  match s.dropWhile isDigitC with
  | [] => !s.isEmpty
  | '-' :: es => !(s.takeWhile isDigitC).isEmpty && !es.isEmpty && es.all isDigitC
  | _ => false

/-- Matches one comma-separated chunk after the first: `\d+(-\d+)?` when
`sp = false`, `\s*\d+(-\d+)?` when `sp = true`. -/
def chunkOk (sp : Bool) (c : List Char) : Bool :=
  isToken (if sp then c.dropWhile isJsWs else c)

/-- `test` of the page-range regex: `^\d+(-\d+)?(,\d+(-\d+)?)*$` when
`sp = false` (the `app.js` pattern), `^\d+(-\d+)?(,\s*\d+(-\d+)?)*$`
when `sp = true` (the `dashboard.js` pattern). -/
def testPattern (sp : Bool) (s : List Char) : Bool :=
  match splitComma s with
  | [] => false
  | c :: cs => isToken c && cs.all (chunkOk sp)

/-- `pageRange.replace(/\s/g, '')` from `app.js` line 629. -/
def stripWs (s : List Char) : List Char :=
  s.filter (fun c => !isJsWs c)

/-- `validatePageRange` from `src/web/app.js` lines 626-630: strip all
whitespace, then test `^\d+(-\d+)?(,\d+(-\d+)?)*$`. -/
def validatePageRange (s : List Char) : Bool :=
  testPattern false (stripWs s)

/-- The page-range guard of `PrintDashboard.printDocument`
(`src/static/dashboard.js` lines 940-946): the submission proceeds past
the page-range check iff `settings.page_range` is falsy (`null` or the
empty string), is the sentinel `'odd'` or `'even'`, or matches
`^\d+(-\d+)?(,\s*\d+(-\d+)?)*$`. -/
def dashboardPageRangeOk (pr : Option (List Char)) : Bool :=
  match pr with
  | none => true
  | some s =>
    s.isEmpty || decide (s = ("odd").data) || decide (s = ("even").data) ||
      testPattern true s

/-! ## The spec-side page-range grammar

A second definition of the grammar, written from the words of the spec
(§6: one or more comma-separated tokens, each a digit string or two
digit strings joined by a hyphen, with optional whitespace after each
comma when `sp = true`), to be proved equivalent to the regex test. -/

/-- A non-empty string of regex digits. -/
def IsDigits (l : List Char) : Prop :=
  l ≠ [] ∧ ∀ c ∈ l, isDigitC c = true

instance : DecidablePred IsDigits := fun l => by
  unfold IsDigits; infer_instance

/-- One grammar token: `\d+` or `\d+-\d+`. -/
inductive TokenSpec : List Char → Prop
  | single (ds : List Char) : IsDigits ds → TokenSpec ds
  | range (ds es : List Char) : IsDigits ds → IsDigits es →
      TokenSpec (ds ++ '-' :: es)

/-- The full page-range grammar: a token, or a token, a comma, optional
whitespace (empty unless `sp = true`) and again a grammar string. -/
inductive PageGrammar (sp : Bool) : List Char → Prop
  | last (t : List Char) : TokenSpec t → PageGrammar sp t
  | cons (t ws rest : List Char) : TokenSpec t →
      (∀ c ∈ ws, isJsWs c = true) → (sp = false → ws = []) →
      PageGrammar sp rest → PageGrammar sp (t ++ ',' :: (ws ++ rest))

/-! ## Basic character-class facts -/

lemma isDigitC_not_comma {c : Char} (h : isDigitC c = true) : c ≠ ',' := by
  rintro rfl; exact absurd h (by decide)

lemma isDigitC_not_hyphen {c : Char} (h : isDigitC c = true) : c ≠ '-' := by
  rintro rfl; exact absurd h (by decide)

lemma isJsWs_not_comma {c : Char} (h : isJsWs c = true) : c ≠ ',' := by
  rintro rfl; exact absurd h (by decide)

lemma isJsWs_not_digit {c : Char} (h : isJsWs c = true) : isDigitC c = false := by
  by_contra hne
  rw [Bool.not_eq_false, isDigitC, Bool.and_eq_true, decide_eq_true_eq,
    decide_eq_true_eq] at hne
  obtain ⟨h0, h9⟩ := hne
  rw [isJsWs, Bool.or_eq_true, decide_eq_true_eq, Bool.and_eq_true,
    decide_eq_true_eq, decide_eq_true_eq] at h
  rcases h with h | ⟨hl, _⟩
  · simp only [jsWsChars, List.mem_cons, List.not_mem_nil, or_false] at h
    rcases h with rfl | rfl | rfl | rfl | rfl | rfl | rfl | rfl | rfl | rfl |
      rfl | rfl | rfl | rfl
    all_goals first
      | exact absurd h0 (by decide)
      | exact absurd h9 (by decide)
  · exact absurd (le_trans hl h9) (by decide)

lemma isDigitC_not_ws {c : Char} (h : isDigitC c = true) : isJsWs c = false := by
  by_contra hw
  rw [Bool.not_eq_false] at hw
  rw [isJsWs_not_digit hw] at h
  exact Bool.false_ne_true h

/-! ## takeWhile / dropWhile helpers -/

lemma dropWhile_of_all {α} {p : α → Bool} (l : List α) (h : ∀ c ∈ l, p c = true) :
    l.dropWhile p = [] := by
  induction l with
  | nil => rfl
  | cons c r ih =>
    rw [List.dropWhile_cons_of_pos (h c (List.mem_cons_self c r))]
    exact ih fun x hx => h x (List.mem_cons_of_mem c hx)

lemma takeWhile_of_all {α} {p : α → Bool} (l : List α) (h : ∀ c ∈ l, p c = true) :
    l.takeWhile p = l := by
  induction l with
  | nil => rfl
  | cons c r ih =>
    rw [List.takeWhile_cons_of_pos (h c (List.mem_cons_self c r))]
    rw [ih fun x hx => h x (List.mem_cons_of_mem c hx)]

lemma dropWhile_append_head_neg {α} {p : α → Bool} (ds : List α) (x : α) (r : List α)
    (hds : ∀ c ∈ ds, p c = true) (hx : p x = false) :
    (ds ++ x :: r).dropWhile p = x :: r := by
  induction ds with
  | nil =>
    rw [List.nil_append]
    exact List.dropWhile_cons_of_neg (by simp [hx])
  | cons d t ih =>
    rw [List.cons_append, List.dropWhile_cons_of_pos (hds d (List.mem_cons_self d t))]
    exact ih fun c hc => hds c (List.mem_cons_of_mem d hc)

lemma takeWhile_append_head_neg {α} {p : α → Bool} (ds : List α) (x : α) (r : List α)
    (hds : ∀ c ∈ ds, p c = true) (hx : p x = false) :
    (ds ++ x :: r).takeWhile p = ds := by
  induction ds with
  | nil =>
    rw [List.nil_append]
    exact List.takeWhile_cons_of_neg (by simp [hx])
  | cons d t ih =>
    rw [List.cons_append, List.takeWhile_cons_of_pos (hds d (List.mem_cons_self d t))]
    rw [ih fun c hc => hds c (List.mem_cons_of_mem d hc)]

lemma dropWhile_append_of_all {α} {p : α → Bool} (w r : List α)
    (hw : ∀ c ∈ w, p c = true) : (w ++ r).dropWhile p = r.dropWhile p := by
  induction w with
  | nil => rfl
  | cons d t ih =>
    rw [List.cons_append, List.dropWhile_cons_of_pos (hw d (List.mem_cons_self d t))]
    exact ih fun c hc => hw c (List.mem_cons_of_mem d hc)

/-! ## Token-level correctness of the regex chunks -/

lemma isToken_iff {s : List Char} : isToken s = true ↔ TokenSpec s := by
  constructor
  · intro h
    unfold isToken at h
    split at h
    next hdw =>
      refine TokenSpec.single s ⟨?_, List.dropWhile_eq_nil_iff.mp hdw⟩
      intro hs; subst hs; simp at h
    next es hdw =>
      have hsplit : s.takeWhile isDigitC ++ '-' :: es = s := by
        rw [← hdw]; exact List.takeWhile_append_dropWhile isDigitC s
      simp only [Bool.and_eq_true, Bool.not_eq_true', List.isEmpty_eq_false_iff_exists_mem,
        List.all_eq_true] at h
      obtain ⟨⟨⟨x, hx⟩, ⟨y, hy⟩⟩, hall⟩ := h
      have hds : IsDigits (s.takeWhile isDigitC) :=
        ⟨List.ne_nil_of_mem hx, fun c hc => List.mem_takeWhile_imp hc⟩
      have hes : IsDigits es := ⟨List.ne_nil_of_mem hy, hall⟩
      have := TokenSpec.range (s.takeWhile isDigitC) es hds hes
      rwa [hsplit] at this
    next => simp at h
  · intro h
    induction h with
    | single ds hds =>
      unfold isToken
      rw [dropWhile_of_all ds hds.2]
      simpa using hds.1
    | range ds es hds hes =>
      unfold isToken
      rw [dropWhile_append_head_neg ds '-' es hds.2 (by decide)]
      rw [takeWhile_append_head_neg ds '-' es hds.2 (by decide)]
      simp only [Bool.and_eq_true, Bool.not_eq_true', List.isEmpty_eq_false_iff_exists_mem,
        List.all_eq_true]
      obtain ⟨d, ds', rfl⟩ : ∃ d ds', ds = d :: ds' := by
        cases ds with
        | nil => exact absurd rfl hds.1
        | cons d ds' => exact ⟨d, ds', rfl⟩
      obtain ⟨e, es', rfl⟩ : ∃ e es', es = e :: es' := by
        cases es with
        | nil => exact absurd rfl hes.1
        | cons e es' => exact ⟨e, es', rfl⟩
      exact ⟨⟨⟨d, List.mem_cons_self d ds'⟩, ⟨e, List.mem_cons_self e es'⟩⟩, hes.2⟩

lemma tokenSpec_no_comma {t : List Char} (h : TokenSpec t) : ∀ c ∈ t, c ≠ ',' := by
  induction h with
  | single ds hds => exact fun c hc => isDigitC_not_comma (hds.2 c hc)
  | range ds es hds hes =>
    intro c hc
    rcases List.mem_append.mp hc with hc | hc
    · exact isDigitC_not_comma (hds.2 c hc)
    · rcases List.mem_cons.mp hc with rfl | hc
      · decide
      · exact isDigitC_not_comma (hes.2 c hc)

lemma tokenSpec_head_digit {t : List Char} (h : TokenSpec t) :
    ∃ d r, t = d :: r ∧ isDigitC d = true := by
  induction h with
  | single ds hds =>
    obtain ⟨d, r, rfl⟩ : ∃ d r, ds = d :: r := by
      cases ds with
      | nil => exact absurd rfl hds.1
      | cons d r => exact ⟨d, r, rfl⟩
    exact ⟨d, r, rfl, hds.2 d (List.mem_cons_self d r)⟩
  | range ds es hds hes =>
    obtain ⟨d, r, rfl⟩ : ∃ d r, ds = d :: r := by
      cases ds with
      | nil => exact absurd rfl hds.1
      | cons d r => exact ⟨d, r, rfl⟩
    exact ⟨d, r ++ '-' :: es, rfl, hds.2 d (List.mem_cons_self d r)⟩

lemma dropWhile_ws_token {t : List Char} (h : TokenSpec t) :
    t.dropWhile isJsWs = t := by
  obtain ⟨d, r, rfl, hd⟩ := tokenSpec_head_digit h
  exact List.dropWhile_cons_of_neg (by simp [isDigitC_not_ws hd])

/-! ## splitComma lemmas -/

lemma splitComma_ne_nil (s : List Char) : splitComma s ≠ [] := by
  cases s with
  | nil => simp [splitComma]
  | cons c r =>
    unfold splitComma
    split
    · simp
    · split <;> simp

lemma splitComma_exists_cons (s : List Char) :
    ∃ d ds, splitComma s = d :: ds := by
  cases h : splitComma s with
  | nil => exact absurd h (splitComma_ne_nil s)
  | cons d ds => exact ⟨d, ds, rfl⟩

lemma splitComma_cons_comma (r : List Char) :
    splitComma (',' :: r) = [] :: splitComma r := by
  simp [splitComma]

lemma splitComma_cons_of_ne {c : Char} (h : c ≠ ',') {r : List Char}
    {d : List Char} {ds : List (List Char)} (hr : splitComma r = d :: ds) :
    splitComma (c :: r) = (c :: d) :: ds := by
  unfold splitComma
  rw [if_neg h, hr]

lemma splitComma_prepend : ∀ (w : List Char), (∀ c ∈ w, c ≠ ',') →
    ∀ {r d ds}, splitComma r = d :: ds → splitComma (w ++ r) = (w ++ d) :: ds
  | [], _, r, d, ds, h => by simpa using h
  | c :: t, hw, r, d, ds, h => by
    have ht := splitComma_prepend t (fun x hx => hw x (List.mem_cons_of_mem c hx)) h
    rw [List.cons_append, splitComma_cons_of_ne (hw c (List.mem_cons_self c t)) ht,
      List.cons_append]

lemma splitComma_nocomma (s : List Char) (h : ∀ c ∈ s, c ≠ ',') :
    splitComma s = [s] := by
  have h0 : splitComma [] = ([] : List Char) :: [] := rfl
  have := splitComma_prepend s h h0
  simpa using this

lemma splitComma_append (t : List Char) (ht : ∀ c ∈ t, c ≠ ',') (r : List Char) :
    splitComma (t ++ ',' :: r) = t :: splitComma r := by
  obtain ⟨d, ds, h⟩ := splitComma_exists_cons r
  have h2 : splitComma (',' :: r) = [] :: d :: ds := by
    rw [splitComma_cons_comma, h]
  rw [splitComma_prepend t ht h2, List.append_nil, h]

/-- Reassemble comma-separated chunks: the inverse of `splitComma`. -/
def unsplitAll : List (List Char) → List Char
  | [] => []
  | [c] => c
  | c :: cs => c ++ ',' :: unsplitAll cs

lemma unsplitAll_cons_cons (c d : List Char) (ds : List (List Char)) :
    unsplitAll (c :: d :: ds) = c ++ ',' :: unsplitAll (d :: ds) := by
  rfl

lemma unsplitAll_splitComma (s : List Char) : unsplitAll (splitComma s) = s := by
  induction s with
  | nil => rfl
  | cons c r ih =>
    obtain ⟨d, ds, h⟩ := splitComma_exists_cons r
    rw [h] at ih
    by_cases hc : c = ','
    · subst hc
      rw [splitComma_cons_comma, h, unsplitAll_cons_cons, List.nil_append, ih]
    · rw [splitComma_cons_of_ne hc h]
      cases ds with
      | nil =>
        simp only [unsplitAll] at ih ⊢
        rw [ih]
      | cons e es =>
        rw [unsplitAll_cons_cons] at ih ⊢
        rw [List.cons_append, ih]

lemma unsplitAll_head_append (ws t : List Char) (ds : List (List Char)) :
    unsplitAll ((ws ++ t) :: ds) = ws ++ unsplitAll (t :: ds) := by
  cases ds with
  | nil => rfl
  | cons e es =>
    rw [unsplitAll_cons_cons, unsplitAll_cons_cons, List.append_assoc]

/-! ## Equivalence of the regex test with the spec grammar -/

lemma chunkOk_decomp {sp : Bool} {c : List Char} (h : chunkOk sp c = true) :
    ∃ ws t, (∀ x ∈ ws, isJsWs x = true) ∧ (sp = false → ws = []) ∧
      TokenSpec t ∧ c = ws ++ t := by
  cases sp with
  | false =>
    exact ⟨[], c, by simp, fun _ => rfl, isToken_iff.mp (by simpa [chunkOk] using h), by simp⟩
  | true =>
    rw [chunkOk, if_pos rfl] at h
    refine ⟨c.takeWhile isJsWs, c.dropWhile isJsWs, ?_, by simp, isToken_iff.mp h, ?_⟩
    · exact fun x hx => List.mem_takeWhile_imp hx
    · exact (List.takeWhile_append_dropWhile isJsWs c).symm

lemma chunkOk_of_token {sp : Bool} {ws t : List Char}
    (hws : ∀ x ∈ ws, isJsWs x = true) (hwsf : sp = false → ws = [])
    (ht : TokenSpec t) : chunkOk sp (ws ++ t) = true := by
  cases sp with
  | false => rw [hwsf rfl]; simpa [chunkOk] using isToken_iff.mpr ht
  | true =>
    rw [chunkOk, if_pos rfl, dropWhile_append_of_all ws t hws, dropWhile_ws_token ht]
    exact isToken_iff.mpr ht

lemma grammar_of_chunks (sp : Bool) : ∀ (cs : List (List Char)) (c : List Char),
    isToken c = true → (∀ d ∈ cs, chunkOk sp d = true) →
    PageGrammar sp (unsplitAll (c :: cs))
  | [], c, hc, _ => by
    exact PageGrammar.last c (isToken_iff.mp hc)
  | d :: ds, c, hc, hall => by
    obtain ⟨ws, t, hws, hwsf, ht, rfl⟩ := chunkOk_decomp (hall d (List.mem_cons_self d ds))
    have hrest := grammar_of_chunks sp ds t (isToken_iff.mpr ht)
      (fun x hx => hall x (List.mem_cons_of_mem (ws ++ t) hx))
    rw [unsplitAll_cons_cons, unsplitAll_head_append]
    exact PageGrammar.cons c ws (unsplitAll (t :: ds)) (isToken_iff.mp hc) hws hwsf hrest

lemma testPattern_of_grammar {sp : Bool} {s : List Char}
    (h : PageGrammar sp s) : testPattern sp s = true := by
  induction h with
  | last t ht =>
    rw [testPattern, splitComma_nocomma t (tokenSpec_no_comma ht)]
    simp [isToken_iff.mpr ht]
  | cons t ws rest ht hws hwsf _ ih =>
    obtain ⟨d, ds, hd⟩ := splitComma_exists_cons rest
    rw [testPattern, hd] at ih
    simp only [Bool.and_eq_true, List.all_eq_true] at ih
    have hsp : splitComma (t ++ ',' :: (ws ++ rest)) = t :: (ws ++ d) :: ds := by
      rw [splitComma_append t (tokenSpec_no_comma ht) (ws ++ rest),
        splitComma_prepend ws (fun x hx => isJsWs_not_comma (hws x hx)) hd]
    rw [testPattern, hsp]
    simp only [Bool.and_eq_true, List.all_eq_true, List.mem_cons]
    refine ⟨isToken_iff.mpr ht, ?_⟩
    rintro x (rfl | hx)
    · have htd : TokenSpec d := isToken_iff.mp ih.1
      exact chunkOk_of_token hws hwsf htd
    · exact ih.2 x hx

lemma testPattern_iff {sp : Bool} {s : List Char} :
    testPattern sp s = true ↔ PageGrammar sp s := by
  constructor
  · intro h
    obtain ⟨d, ds, hd⟩ := splitComma_exists_cons s
    rw [testPattern, hd] at h
    simp only [Bool.and_eq_true, List.all_eq_true] at h
    have := grammar_of_chunks sp ds d h.1 h.2
    rwa [← hd, unsplitAll_splitComma] at this
  · exact testPattern_of_grammar

/-! ## stripWs lemmas -/

lemma stripWs_idem (s : List Char) : stripWs (stripWs s) = stripWs s := by
  simp [stripWs, List.filter_filter]

lemma stripWs_eq_self {s : List Char} (h : ∀ c ∈ s, isJsWs c = false) :
    stripWs s = s :=
  List.filter_eq_self.mpr (fun c hc => by simp [h c hc])

/-! ## The job monitor state machine

`PrintDashboard.monitorJobProgress` (`src/static/dashboard.js` lines
1194-1272) runs one `setInterval` callback per job.  Each tick is pure in
the job record given the tick's external observation: either the printer
status fetch failed (`response.ok` false, or an exception; the code then
does `job.progress += Math.random() * 10 + 5`, modeled as adding an
arbitrary rational `r`), or the fetch returned a device status string, an
optional message, and the optionally matched queue entry (the result of
`printerStatus.jobs?.find(pJob => pJob.document.includes(job.fileName))`).
JS numbers are embedded as `ℚ`; status strings as an enumeration of the
five literals the code uses.  `monitorTick` returns the updated job and
whether `clearInterval` was called on this tick. -/

/-- The job status strings `dashboard.js` assigns. -/
inductive JStatus
  | pending
  | printing
  | completed
  | error
  | cancelled
  deriving DecidableEq, Repr

/-- The mutable fields of the job objects in `this.jobQueue` that the
monitor, cancel and history code reads or writes. -/
structure MJob where
  id : Nat
  status : JStatus
  progress : ℚ
  error : Option (List Char)
  deriving DecidableEq, Repr

/-- A printer queue entry as reported by the detailed-status endpoint. -/
structure QEntry where
  pages_printed : ℚ
  total_pages : ℚ
  deriving DecidableEq, Repr

/-- The external observation consumed by one monitor tick. -/
inductive TickObs
  | fetchFail (r : ℚ)
  | ok (devStatus : List Char) (devMsg : Option (List Char)) (entry : Option QEntry)
  deriving DecidableEq, Repr

/-- The template literal of `dashboard.js` line 1244:
`` `Printer ${printerStatus.status}: ${printerStatus.message || 'Unknown error'}` ``
(a missing or empty message is falsy). -/
def printerFailMsg (devStatus : List Char) (devMsg : Option (List Char)) : List Char :=
  ("Printer ").data ++ devStatus ++ (": ").data ++
    (match devMsg with
     | some m => if m.isEmpty then ("Unknown error").data else m
     | none => ("Unknown error").data)

/-- Lines 1261-1267: `if (job.progress >= 100) { job.progress = 100;
job.status = 'completed'; clearInterval(interval); ... }`, reached on
every tick path that does not `return` early. -/
def clamp100 (j : MJob) (stop : Bool) : MJob × Bool :=
  if 100 ≤ j.progress then
    ({ j with progress := 100, status := JStatus.completed }, true)
  else
    (j, stop)

/-- One tick of the `monitorJobProgress` interval callback
(`src/static/dashboard.js` lines 1197-1270). -/
def monitorTick (j : MJob) (obs : TickObs) : MJob × Bool :=
  if j.status = JStatus.error ∨ j.status = JStatus.cancelled then
    (j, true)
  else
    match obs with
    | TickObs.fetchFail r =>
      clamp100 { j with progress := j.progress + r } false
    | TickObs.ok devStatus devMsg entry =>
      let step :=
        match entry with
        | some e =>
          if 0 < e.total_pages then
            ({ j with progress := min 95 (e.pages_printed / e.total_pages * 100) }, false)
          else
            ({ j with progress := min 90 (j.progress + 10) }, false)
        | none =>
          if j.progress < 95 then
            ({ j with progress := min 95 (j.progress + 15) }, false)
          else
            ({ j with progress := 100, status := JStatus.completed }, true)
      if devStatus = ("error").data ∨ devStatus = ("offline").data then
        ({ step.1 with status := JStatus.error,
                       error := some (printerFailMsg devStatus devMsg) }, true)
      else
        clamp100 step.1 step.2

/-- `PrintDashboard.cancelJob` (`src/static/dashboard.js` lines
1274-1284): find the first job in `this.jobQueue` with the given id and,
if present, set `job.status = 'cancelled'; job.progress = 0;` in place;
otherwise do nothing. -/
def cancelJob : List MJob → Nat → List MJob
  | [], _ => []
  | j :: rest, i =>
    if j.id = i then
      { j with status := JStatus.cancelled, progress := 0 } :: rest
    else
      j :: cancelJob rest i

/-- `PrintDashboard.addJobToHistory` (`src/static/dashboard.js` lines
1298-1310): `unshift` the job onto `this.jobHistory`, then if the length
exceeds 20, keep `slice(0, 20)`.  The `completedAt` timestamp the code
attaches is not modeled (wall-clock time). -/
def addJobToHistory (hist : List MJob) (j : MJob) : List MJob :=
  let h := j :: hist
  if 20 < h.length then h.take 20 else h

/-! ## Path lemmas for monitorTick -/

lemma monitorTick_terminal {j : MJob} (h : j.status = JStatus.error ∨ j.status = JStatus.cancelled)
    (obs : TickObs) : monitorTick j obs = (j, true) := by
  rw [monitorTick.eq_def, if_pos h]

lemma monitorTick_fetchFail {j : MJob}
    (h : ¬(j.status = JStatus.error ∨ j.status = JStatus.cancelled)) (r : ℚ) :
    monitorTick j (TickObs.fetchFail r) =
      clamp100 { j with progress := j.progress + r } false := by
  rw [monitorTick.eq_def, if_neg h]

lemma monitorTick_ok_entry_pos {j : MJob}
    (h : ¬(j.status = JStatus.error ∨ j.status = JStatus.cancelled))
    {dev : List Char} {msg : Option (List Char)} {e : QEntry}
    (hdev : ¬(dev = ("error").data ∨ dev = ("offline").data))
    (htp : 0 < e.total_pages) :
    monitorTick j (TickObs.ok dev msg (some e)) =
      ({ j with progress := min 95 (e.pages_printed / e.total_pages * 100) }, false) := by
  rw [monitorTick.eq_def, if_neg h]
  simp only [if_pos htp, if_neg hdev]
  rw [clamp100, if_neg (by
    intro hc
    have := le_trans hc (min_le_left _ _)
    norm_num at this)]

lemma monitorTick_ok_entry_nonpos {j : MJob}
    (h : ¬(j.status = JStatus.error ∨ j.status = JStatus.cancelled))
    {dev : List Char} {msg : Option (List Char)} {e : QEntry}
    (hdev : ¬(dev = ("error").data ∨ dev = ("offline").data))
    (htp : ¬(0 < e.total_pages)) :
    monitorTick j (TickObs.ok dev msg (some e)) =
      ({ j with progress := min 90 (j.progress + 10) }, false) := by
  rw [monitorTick.eq_def, if_neg h]
  simp only [if_neg htp, if_neg hdev]
  rw [clamp100, if_neg (by
    intro hc
    have := le_trans hc (min_le_left _ _)
    norm_num at this)]

lemma monitorTick_ok_none_low {j : MJob}
    (h : ¬(j.status = JStatus.error ∨ j.status = JStatus.cancelled))
    {dev : List Char} {msg : Option (List Char)}
    (hdev : ¬(dev = ("error").data ∨ dev = ("offline").data))
    (hp : j.progress < 95) :
    monitorTick j (TickObs.ok dev msg none) =
      ({ j with progress := min 95 (j.progress + 15) }, false) := by
  rw [monitorTick.eq_def, if_neg h]
  simp only [if_pos hp, if_neg hdev]
  rw [clamp100, if_neg (by
    intro hc
    have := le_trans hc (min_le_left _ _)
    norm_num at this)]

lemma monitorTick_ok_none_high {j : MJob}
    (h : ¬(j.status = JStatus.error ∨ j.status = JStatus.cancelled))
    {dev : List Char} {msg : Option (List Char)}
    (hdev : ¬(dev = ("error").data ∨ dev = ("offline").data))
    (hp : ¬(j.progress < 95)) :
    monitorTick j (TickObs.ok dev msg none) =
      ({ j with progress := 100, status := JStatus.completed }, true) := by
  rw [monitorTick.eq_def, if_neg h]
  simp only [if_neg hp, if_neg hdev]
  rw [clamp100]
  simp

lemma monitorTick_ok_devbad {j : MJob}
    (h : ¬(j.status = JStatus.error ∨ j.status = JStatus.cancelled))
    {dev : List Char} {msg : Option (List Char)} {entry : Option QEntry}
    (hdev : dev = ("error").data ∨ dev = ("offline").data) :
    (monitorTick j (TickObs.ok dev msg entry)).1.status = JStatus.error ∧
    (monitorTick j (TickObs.ok dev msg entry)).1.error = some (printerFailMsg dev msg) ∧
    (monitorTick j (TickObs.ok dev msg entry)).2 = true := by
  rw [monitorTick.eq_def, if_neg h]
  simp only [if_pos hdev]
  cases entry with
  | none => by_cases hp : j.progress < 95 <;> simp [if_pos, if_neg, hp]
  | some e => by_cases htp : 0 < e.total_pages <;> simp [htp]

lemma monitorTick_ok_devbad_progress_entry_pos {j : MJob}
    (h : ¬(j.status = JStatus.error ∨ j.status = JStatus.cancelled))
    {dev : List Char} {msg : Option (List Char)} {e : QEntry}
    (hdev : dev = ("error").data ∨ dev = ("offline").data)
    (htp : 0 < e.total_pages) :
    (monitorTick j (TickObs.ok dev msg (some e))).1.progress =
      min 95 (e.pages_printed / e.total_pages * 100) := by
  rw [monitorTick.eq_def, if_neg h]
  simp only [if_pos htp, if_pos hdev]

lemma monitorTick_ok_devbad_progress_none {j : MJob}
    (h : ¬(j.status = JStatus.error ∨ j.status = JStatus.cancelled))
    {dev : List Char} {msg : Option (List Char)}
    (hdev : dev = ("error").data ∨ dev = ("offline").data) :
    (monitorTick j (TickObs.ok dev msg none)).1.progress =
      if j.progress < 95 then min 95 (j.progress + 15) else 100 := by
  rw [monitorTick.eq_def, if_neg h]
  simp only [if_pos hdev]
  by_cases hp : j.progress < 95 <;> simp [hp]

/-! ## Claim theorems -/

/-- Claim C1 counterexample: the string "1 2" is accepted by
`validatePageRange` (the stripped form "12" matches the pattern) although
it neither matches the claimed grammar `^\d+(-\d+)?(,\s*\d+(-\d+)?)*$`
nor is a sentinel; conversely the sentinel "odd" is rejected by
`validatePageRange`.  This refutes the claimed acceptance iff
grammar-or-sentinel. -/
theorem claim_C1_counterexample :
    validatePageRange (("1 2").data) = true ∧
    ¬ PageGrammar true (("1 2").data) ∧
    ("1 2").data ≠ ("odd").data ∧ ("1 2").data ≠ ("even").data ∧
    validatePageRange (("odd").data) = false := by
  refine ⟨by decide, ?_, by decide, by decide, by decide⟩
  intro hg
  have h := testPattern_of_grammar hg
  rw [show testPattern true (("1 2").data) = false from by decide] at h
  exact Bool.false_ne_true h

/-- Claim C1 (amended): `validatePageRange` accepts exactly the strings
whose whitespace-stripped form matches the whitespace-free page-range
grammar; the sentinels "odd" and "even" are rejected by
`validatePageRange` itself.  The grammar-or-sentinel acceptance holds
instead for the page-range guard of `printDocument` in `dashboard.js`,
which exempts falsy and sentinel values before testing the pattern. -/
theorem claim_C1_amended :
    (∀ s : List Char, validatePageRange s = true ↔ PageGrammar false (stripWs s)) ∧
    (∀ s : List Char,
      dashboardPageRangeOk (some s) = true ↔
        (s = [] ∨ PageGrammar true s ∨ s = ("odd").data ∨ s = ("even").data)) ∧
    validatePageRange (("odd").data) = false ∧
    validatePageRange (("even").data) = false := by
  refine ⟨fun s => ?_, fun s => ?_, by decide, by decide⟩
  · rw [validatePageRange]
    exact testPattern_iff
  · simp only [dashboardPageRangeOk, Bool.or_eq_true, decide_eq_true_eq,
      List.isEmpty_iff]
    constructor
    · rintro (((h | h) | h) | h)
      · exact Or.inl h
      · exact Or.inr (Or.inr (Or.inl h))
      · exact Or.inr (Or.inr (Or.inr h))
      · exact Or.inr (Or.inl (testPattern_iff.mp h))
    · rintro (h | h | h | h)
      · exact Or.inl (Or.inl (Or.inl h))
      · exact Or.inr (testPattern_iff.mpr h)
      · exact Or.inl (Or.inl (Or.inr h))
      · exact Or.inl (Or.inr h)

/-- Claim C10: `validatePageRange` is invariant under deleting every
whitespace character of its input, because it strips whitespace itself
before testing the pattern and stripping is idempotent. -/
theorem claim_C10 (s : List Char) :
    validatePageRange (stripWs s) = validatePageRange s := by
  rw [validatePageRange, validatePageRange, stripWs_idem]

/-- Claim C8 counterexample: the descending range token "5-1" and the
zero-endpoint token "0-3" are both accepted by `validatePageRange`; the
validation is purely syntactic, refuting the claimed ordering and
positivity requirements. -/
theorem claim_C8_counterexample :
    validatePageRange (("5-1").data) = true ∧
    validatePageRange (("0-3").data) = true :=
  ⟨by decide, by decide⟩

/-- Claim C8 (amended): any token made of two non-empty digit strings
joined by a hyphen passes `validatePageRange`, with no check that the
first number is positive or not greater than the second. -/
theorem claim_C8_amended (ds es : List Char) (hds : IsDigits ds) (hes : IsDigits es) :
    validatePageRange (ds ++ '-' :: es) = true := by
  have hg : PageGrammar false (ds ++ '-' :: es) :=
    PageGrammar.last _ (TokenSpec.range ds es hds hes)
  have hs : stripWs (ds ++ '-' :: es) = ds ++ '-' :: es := by
    apply stripWs_eq_self
    intro c hc
    rcases List.mem_append.mp hc with hc | hc
    · exact isDigitC_not_ws (hds.2 c hc)
    · rcases List.mem_cons.mp hc with rfl | hc
      · decide
      · exact isDigitC_not_ws (hes.2 c hc)
  rw [validatePageRange, hs]
  exact testPattern_of_grammar hg

/-- Claim C8 witness: the amended claim applied to the concrete token
"99-1". -/
theorem claim_C8_witness :
    validatePageRange ((['9', '9'] : List Char) ++ '-' :: ['1']) = true :=
  claim_C8_amended ['9', '9'] ['1'] (by decide) (by decide)

/-- Claim C2 counterexample: a job at progress 15 (status printing,
non-terminal) that a tick correlates to a queue entry with 0 of 10 pages
printed is written back with progress min 95 (0/10*100) = 0 < 15, while
its status stays printing: a progress write before any terminal state
that decreases progress, refuting the claimed monotonicity. -/
theorem claim_C2_counterexample :
    (monitorTick ⟨1, JStatus.printing, 15, none⟩
        (TickObs.ok (("ready").data) none (some ⟨0, 10⟩))).1.status = JStatus.printing ∧
    (monitorTick ⟨1, JStatus.printing, 15, none⟩
        (TickObs.ok (("ready").data) none (some ⟨0, 10⟩))).1.progress < 15 := by
  rw [monitorTick_ok_entry_pos (by decide) (by decide) (by decide)]
  refine ⟨rfl, ?_⟩
  show min (95 : ℚ) ((0 : ℚ) / 10 * 100) < 15
  norm_num

/-- Claim C2 (amended): progress never decreases on monitor ticks where
the job is not correlated to a printer queue entry and on
transient-failure ticks with a non-negative increment, provided progress
is at most 100 (an invariant of all reachable states); a tick that is
correlated to a queue entry instead overwrites progress with the
printer-derived value, which may be lower (see the counterexample). -/
theorem claim_C2_amended (j : MJob) (r : ℚ) (dev : List Char) (msg : Option (List Char))
    (hle : j.progress ≤ 100) (hr : 0 ≤ r) :
    j.progress ≤ (monitorTick j (TickObs.fetchFail r)).1.progress ∧
    j.progress ≤ (monitorTick j (TickObs.ok dev msg none)).1.progress := by
  by_cases hterm : j.status = JStatus.error ∨ j.status = JStatus.cancelled
  · rw [monitorTick_terminal hterm, monitorTick_terminal hterm]
    exact ⟨le_refl _, le_refl _⟩
  constructor
  · rw [monitorTick_fetchFail hterm r, clamp100]
    by_cases hc : (100 : ℚ) ≤ ({ j with progress := j.progress + r } : MJob).progress
    · rw [if_pos hc]
      exact hle
    · rw [if_neg hc]
      exact le_add_of_nonneg_right hr
  · by_cases hdev : dev = ("error").data ∨ dev = ("offline").data
    · rw [monitorTick_ok_devbad_progress_none hterm hdev]
      by_cases hp : j.progress < 95
      · rw [if_pos hp]
        exact le_min (le_of_lt hp) (le_add_of_nonneg_right (by norm_num))
      · rw [if_neg hp]
        exact hle
    · by_cases hp : j.progress < 95
      · rw [monitorTick_ok_none_low hterm hdev hp]
        exact le_min (le_of_lt hp) (le_add_of_nonneg_right (by norm_num))
      · rw [monitorTick_ok_none_high hterm hdev hp]
        exact hle

/-- Claim C2 witness: the amended claim at a concrete printing job with
progress 15, increment 5 and device status "ready". -/
theorem claim_C2_witness :
    (⟨1, JStatus.printing, 15, none⟩ : MJob).progress ≤
      (monitorTick ⟨1, JStatus.printing, 15, none⟩ (TickObs.fetchFail 5)).1.progress ∧
    (⟨1, JStatus.printing, 15, none⟩ : MJob).progress ≤
      (monitorTick ⟨1, JStatus.printing, 15, none⟩
        (TickObs.ok (("ready").data) none none)).1.progress :=
  claim_C2_amended ⟨1, JStatus.printing, 15, none⟩ 5 (("ready").data) none
    (by decide) (by decide)

/-- Claim C3 counterexample: `cancelJob` applied to a queue holding one
job in the terminal status completed transitions it to cancelled with
progress reset to 0 — the terminal job is not left unchanged and no
error is reported (the function has no error result at all), refuting
the claimed InvalidStateError behaviour. -/
theorem claim_C3_counterexample :
    cancelJob [⟨1, JStatus.completed, 100, none⟩] 1 =
      [⟨1, JStatus.cancelled, 0, none⟩] ∧
    (⟨1, JStatus.completed, 100, none⟩ : MJob).status = JStatus.completed :=
  ⟨rfl, rfl⟩

/-- Claim C3 (amended): `cancelJob` applies the cancel transition
(status := cancelled, progress := 0) to a job found in the queue even
when that job is already terminal (completed, error or cancelled),
silently and without any error report; an absent job id is silently
ignored (see claim C9). -/
theorem claim_C3_amended (j : MJob) (q : List MJob)
    (_hterm : j.status = JStatus.completed ∨ j.status = JStatus.error ∨
      j.status = JStatus.cancelled) :
    cancelJob (j :: q) j.id =
      { j with status := JStatus.cancelled, progress := 0 } :: q := by
  rw [cancelJob, if_pos rfl]

/-- Claim C3 witness: the amended claim at a concrete completed job. -/
theorem claim_C3_witness :
    cancelJob ((⟨2, JStatus.completed, 100, none⟩ : MJob) :: [])
        (⟨2, JStatus.completed, 100, none⟩ : MJob).id =
      { (⟨2, JStatus.completed, 100, none⟩ : MJob) with
          status := JStatus.cancelled, progress := 0 } :: [] :=
  claim_C3_amended ⟨2, JStatus.completed, 100, none⟩ [] (Or.inl rfl)

/-- Claim C9: `cancelJob` on a job id absent from the queue changes
nothing, and on a present id rewrites exactly the first matching job to
status cancelled with progress 0 — in the same update and regardless of
that job's current status or progress — leaving all other entries
unchanged. -/
theorem claim_C9 :
    (∀ (q : List MJob) (i : Nat), (∀ k ∈ q, k.id ≠ i) → cancelJob q i = q) ∧
    (∀ (pre : List MJob) (j : MJob) (post : List MJob) (i : Nat),
      (∀ k ∈ pre, k.id ≠ i) → j.id = i →
      cancelJob (pre ++ j :: post) i =
        pre ++ { j with status := JStatus.cancelled, progress := 0 } :: post) := by
  constructor
  · intro q i h
    induction q with
    | nil => rfl
    | cons k rest ih =>
      rw [cancelJob, if_neg (h k (List.mem_cons_self k rest)),
        ih fun x hx => h x (List.mem_cons_of_mem k hx)]
  · intro pre j post i hpre hj
    induction pre with
    | nil =>
      rw [List.nil_append, List.nil_append, cancelJob, if_pos hj]
    | cons k rest ih =>
      rw [List.cons_append, cancelJob, if_neg (hpre k (List.mem_cons_self k rest)),
        ih fun x hx => hpre x (List.mem_cons_of_mem k hx), List.cons_append]

/-- Claim C9 witness: both parts of C9 at concrete queues — an absent id
leaves the queue unchanged, and a present id cancels exactly that job. -/
theorem claim_C9_witness :
    cancelJob [(⟨7, JStatus.pending, 0, none⟩ : MJob)] 3 =
      [(⟨7, JStatus.pending, 0, none⟩ : MJob)] ∧
    cancelJob ([(⟨7, JStatus.pending, 0, none⟩ : MJob)] ++
        (⟨3, JStatus.printing, 50, none⟩ : MJob) :: []) 3 =
      [(⟨7, JStatus.pending, 0, none⟩ : MJob)] ++
        { (⟨3, JStatus.printing, 50, none⟩ : MJob) with
            status := JStatus.cancelled, progress := 0 } :: [] :=
  ⟨claim_C9.1 [⟨7, JStatus.pending, 0, none⟩] 3 (by decide),
   claim_C9.2 [⟨7, JStatus.pending, 0, none⟩] ⟨3, JStatus.printing, 50, none⟩ [] 3
     (by decide) rfl⟩

/-- Claim C4: the history list holds at most 20 entries after
`addJobToHistory`; the job is inserted at the front; inserting into a
full list of 20 keeps the new entry followed by the previous entries
without the last (oldest) one, preserving their relative order, and
inserting into a shorter list evicts nothing. -/
theorem claim_C4 (hist : List MJob) (j : MJob) :
    (addJobToHistory hist j).length ≤ 20 ∧
    (hist.length = 20 → addJobToHistory hist j = j :: hist.dropLast) ∧
    (hist.length < 20 → addJobToHistory hist j = j :: hist) := by
  refine ⟨?_, ?_, ?_⟩
  · simp only [addJobToHistory]
    by_cases h : 20 < (j :: hist).length
    · rw [if_pos h, List.length_take]
      exact min_le_left _ _
    · rw [if_neg h]
      simp only [List.length_cons] at h ⊢
      omega
  · intro h20
    have hlen : 20 < (j :: hist).length := by simp [h20]
    simp only [addJobToHistory, if_pos hlen]
    rw [List.dropLast_eq_take, h20]
    rfl
  · intro h
    have hlen : ¬ 20 < (j :: hist).length := by
      simp only [List.length_cons]
      omega
    simp only [addJobToHistory, if_neg hlen]

/-- Claim C4 witness: inserting a 21st job into a full history of 20
evicts exactly the last entry. -/
theorem claim_C4_witness :
    addJobToHistory (List.replicate 20 (⟨0, JStatus.completed, 100, none⟩ : MJob))
        (⟨1, JStatus.cancelled, 0, none⟩ : MJob) =
      (⟨1, JStatus.cancelled, 0, none⟩ : MJob) ::
        (List.replicate 20 (⟨0, JStatus.completed, 100, none⟩ : MJob)).dropLast :=
  (claim_C4 (List.replicate 20 ⟨0, JStatus.completed, 100, none⟩)
    ⟨1, JStatus.cancelled, 0, none⟩).2.1 (by simp)

/-- Claim C5: on every monitor tick of a non-terminal job that is
correlated to a queue entry with positive total pages, the new progress
is exactly min 95 (pages_printed / total_pages * 100), hence never above
95; this holds whether or not the device also reports an error on the
same tick. -/
theorem claim_C5 (j : MJob) (dev : List Char) (msg : Option (List Char)) (e : QEntry)
    (hterm : ¬(j.status = JStatus.error ∨ j.status = JStatus.cancelled))
    (htp : 0 < e.total_pages) :
    (monitorTick j (TickObs.ok dev msg (some e))).1.progress =
      min 95 (e.pages_printed / e.total_pages * 100) ∧
    (monitorTick j (TickObs.ok dev msg (some e))).1.progress ≤ 95 := by
  by_cases hdev : dev = ("error").data ∨ dev = ("offline").data
  · have hp := @monitorTick_ok_devbad_progress_entry_pos j hterm dev msg e hdev htp
    exact ⟨hp, by rw [hp]; exact min_le_left _ _⟩
  · rw [monitorTick_ok_entry_pos hterm hdev htp]
    exact ⟨rfl, min_le_left _ _⟩

/-- Claim C5 witness: the claim at a concrete printing job matched to a
queue entry with 2 of 10 pages printed. -/
theorem claim_C5_witness :
    (monitorTick ⟨1, JStatus.printing, 50, none⟩
        (TickObs.ok (("ready").data) none (some ⟨2, 10⟩))).1.progress =
      min 95 ((2 : ℚ) / 10 * 100) ∧
    (monitorTick ⟨1, JStatus.printing, 50, none⟩
        (TickObs.ok (("ready").data) none (some ⟨2, 10⟩))).1.progress ≤ 95 :=
  claim_C5 ⟨1, JStatus.printing, 50, none⟩ (("ready").data) none ⟨2, 10⟩
    (by decide) (by decide)

/-- Claim C6: when the status provider reports the device as "offline"
or "error" on a tick of a non-terminal job, the job is failed — its
status becomes the failure status (the code's literal is 'error', the
state the spec names `failed`) with an error message naming the
device-reported status — the interval is cleared on that tick, and any
further tick on the resulting job writes nothing (it stops
immediately). -/
theorem claim_C6 (j : MJob) (dev : List Char) (msg : Option (List Char))
    (entry : Option QEntry)
    (hterm : ¬(j.status = JStatus.error ∨ j.status = JStatus.cancelled))
    (hdev : dev = ("offline").data ∨ dev = ("error").data) :
    (monitorTick j (TickObs.ok dev msg entry)).1.status = JStatus.error ∧
    (monitorTick j (TickObs.ok dev msg entry)).1.error =
      some (printerFailMsg dev msg) ∧
    (monitorTick j (TickObs.ok dev msg entry)).2 = true ∧
    ∀ obs : TickObs,
      monitorTick (monitorTick j (TickObs.ok dev msg entry)).1 obs =
        ((monitorTick j (TickObs.ok dev msg entry)).1, true) := by
  obtain ⟨h1, h2, h3⟩ := monitorTick_ok_devbad hterm hdev.symm
  exact ⟨h1, h2, h3, fun obs => monitorTick_terminal (Or.inl h1) obs⟩

/-- Claim C6 witness: the claim at a concrete printing job whose device
reports "offline". -/
theorem claim_C6_witness :
    (monitorTick ⟨1, JStatus.printing, 50, none⟩
        (TickObs.ok (("offline").data) none none)).1.status = JStatus.error ∧
    (monitorTick ⟨1, JStatus.printing, 50, none⟩
        (TickObs.ok (("offline").data) none none)).1.error =
      some (printerFailMsg (("offline").data) none) ∧
    (monitorTick ⟨1, JStatus.printing, 50, none⟩
        (TickObs.ok (("offline").data) none none)).2 = true ∧
    ∀ obs : TickObs,
      monitorTick (monitorTick ⟨1, JStatus.printing, 50, none⟩
          (TickObs.ok (("offline").data) none none)).1 obs =
        ((monitorTick ⟨1, JStatus.printing, 50, none⟩
          (TickObs.ok (("offline").data) none none)).1, true) :=
  claim_C6 ⟨1, JStatus.printing, 50, none⟩ (("offline").data) none none
    (by decide) (Or.inl rfl)

/-- Claim C7 counterexample: a transient fetch failure on a printing job
at progress 96 adds the fallback increment 5, reaching 100, upon which
the tick marks the job completed and clears the interval — polling does
not continue on the next tick, refuting that part of the claim. -/
theorem claim_C7_counterexample :
    monitorTick ⟨1, JStatus.printing, 96, none⟩ (TickObs.fetchFail 5) =
      (⟨1, JStatus.completed, 100, none⟩, true) := by
  rw [monitorTick_fetchFail (by decide) 5, clamp100, if_pos (by norm_num)]

/-- Claim C7 (amended): a transient failure to reach the status provider
never fails the job (status never becomes the error status, the error
detail is untouched) and adds the fallback increment to progress; when
the result stays below 100 the job is otherwise unchanged and polling
continues, but when it reaches 100 the job is marked completed and
monitoring stops. -/
theorem claim_C7_amended (j : MJob) (r : ℚ)
    (hterm : ¬(j.status = JStatus.error ∨ j.status = JStatus.cancelled)) :
    (monitorTick j (TickObs.fetchFail r)).1.status ≠ JStatus.error ∧
    (monitorTick j (TickObs.fetchFail r)).1.error = j.error ∧
    (j.progress + r < 100 →
      monitorTick j (TickObs.fetchFail r) =
        ({ j with progress := j.progress + r }, false)) ∧
    (100 ≤ j.progress + r →
      monitorTick j (TickObs.fetchFail r) =
        ({ j with progress := 100, status := JStatus.completed }, true)) := by
  rw [monitorTick_fetchFail hterm r, clamp100]
  by_cases hc : (100 : ℚ) ≤ ({ j with progress := j.progress + r } : MJob).progress
  · rw [if_pos hc]
    refine ⟨by simp, rfl, ?_, fun _ => rfl⟩
    intro hlt
    exact absurd hc (not_le.mpr hlt)
  · rw [if_neg hc]
    refine ⟨?_, rfl, fun _ => rfl, fun hge => absurd hge hc⟩
    intro hst
    exact hterm (Or.inl hst)

/-- Claim C7 witness: the amended claim at a concrete printing job with
progress 40 and increment 7. -/
theorem claim_C7_witness :
    (monitorTick ⟨1, JStatus.printing, 40, none⟩ (TickObs.fetchFail 7)).1.status ≠
      JStatus.error ∧
    (monitorTick ⟨1, JStatus.printing, 40, none⟩ (TickObs.fetchFail 7)).1.error = none ∧
    ((40 : ℚ) + 7 < 100 →
      monitorTick ⟨1, JStatus.printing, 40, none⟩ (TickObs.fetchFail 7) =
        (⟨1, JStatus.printing, 40 + 7, none⟩, false)) ∧
    (100 ≤ (40 : ℚ) + 7 →
      monitorTick ⟨1, JStatus.printing, 40, none⟩ (TickObs.fetchFail 7) =
        (⟨1, JStatus.completed, 100, none⟩, true)) :=
  claim_C7_amended ⟨1, JStatus.printing, 40, none⟩ 7 (by decide)
